import Mathlib

/-!
# Verification of `multi-stash` (`MultiStash<T>`)

Shallow embedding of the Rust crate `multi-stash` (files `src/lib.rs`,
`src/entry.rs`, `src/iter.rs`) and proofs about it.

Modelling conventions:
* `usize` is modelled as `Nat`.  The crate treats arithmetic overflow of
  `usize` counters as a fatal panic (`checked_add(..).unwrap()`); on `Nat`
  these additions never overflow, so the corresponding panic branches are
  unrepresentable.  The `-=` subtractions of the source are modelled with
  truncated `Nat` subtraction.
* `NonZeroUsize` is modelled as the subtype `{n : Nat // 0 < n}`, so the
  type-level guarantee that an occupied entry's `remaining` count is
  strictly positive is kept.  In particular `remaining.get().wrapping_sub(1)`
  never actually wraps and equals truncated subtraction.
* `Vec<Entry<T>>` is modelled as `List (Entry T)`.
* Fallible lookups (`Vec::get`) are modelled with `List.getElem?`.
* `MultiStash::put` contains an `unreachable!` panic branch (claiming a
  non-vacant slot) and an unchecked access `get_unchecked_mut` relying on
  `free` being in bounds; both abnormal situations are modelled by `put`
  returning `none`.
* `take_one` requires `T: Clone`; cloning is value duplication, which is
  implicit for Lean values.
* Mutating Rust methods `&mut self` become Lean functions returning the new
  state next to the Rust return value.
-/

/-- Model of `core::num::NonZeroUsize`: a natural number known positive. -/
abbrev NonZeroUsize := { n : Nat // 0 < n }

namespace MultiStashModel

/-- `Entry<T>` from `src/entry.rs`: a slot is either `Vacant` (holding the
`next_free` link of the intrusive free list) or `Occupied` (holding a
strictly positive `remaining` count and the `item`). -/
inductive Entry (T : Type) where
  | Vacant (next_free : Nat)
  | Occupied (remaining : NonZeroUsize) (item : T)
  deriving DecidableEq

/-- The `MultiStash<T>` struct from `src/lib.rs` (field order as in source). -/
structure MultiStash (T : Type) where
  /-- The next vacant or free slot to allocate. -/
  free : Nat
  /-- The number of items stored (each occupied entry may store several). -/
  len_items : Nat
  /-- The number of occupied entries. -/
  len_occupied : Nat
  /-- The entries of the stash. -/
  entries : List (Entry T)
  deriving DecidableEq

namespace MultiStash

variable {T : Type}

/-- `MultiStash::new`. -/
def new : MultiStash T :=
  { free := 0, len_items := 0, len_occupied := 0, entries := [] }

/-- `MultiStash::len_entries`: `self.entries.len()`. -/
def len_entries (s : MultiStash T) : Nat :=
  s.entries.length

/-- `MultiStash::is_empty`: `self.len_occupied() == 0`. -/
def is_empty (s : MultiStash T) : Bool :=
  s.len_occupied == 0

/-- `MultiStash::clear`: resets `free` and both counters to `0` and clears
the entry table (capacity is not modelled). -/
def clear (_s : MultiStash T) : MultiStash T :=
  { free := 0, len_items := 0, len_occupied := 0, entries := [] }

/-- `MultiStash::get`: returns the remaining count and the element at `key`
when that slot is occupied, `none` otherwise.  Read-only. -/
def get (s : MultiStash T) (key : Nat) : Option (Nat × T) :=
  match s.entries[key]? with
  | some (Entry.Occupied remaining item) => some (remaining.val, item)
  | _ => none

/-- `MultiStash::get_mut`: the lookup performed by the mutable accessor.
The Rust function hands out a mutable borrow of the item but mutates no
field of the stash itself, so its lookup semantics coincide with `get`. -/
def get_mut (s : MultiStash T) (key : Nat) : Option (Nat × T) :=
  match s.entries[key]? with
  | some (Entry.Occupied remaining item) => some (remaining.val, item)
  | _ => none

/-- `MultiStash::put`.  Returns the key and the new state, or `none` for the
`unreachable!` panic branch (the slot at `free` exists but is not vacant)
and for the out-of-bounds unchecked access (`free > len_entries`). -/
def put (s : MultiStash T) (amount : NonZeroUsize) (item : T) :
    Option (Nat × MultiStash T) :=
  let key := s.free
  if s.free = s.len_entries then
    some (key,
      { free := s.free + 1,
        len_items := s.len_items + amount.val,
        len_occupied := s.len_occupied + 1,
        entries := s.entries ++ [Entry.Occupied amount item] })
  else
    match s.entries[s.free]? with
    | some (Entry.Vacant next_free) =>
        some (key,
          { free := next_free,
            len_items := s.len_items + amount.val,
            len_occupied := s.len_occupied + 1,
            entries := s.entries.set s.free (Entry.Occupied amount item) })
    | _ => none

/-- `MultiStash::take_all`.  Returns the removed `(count, item)` (or `none`)
together with the new state.  On the vacant path the source replaces the
entry by `Vacant(self.free)` and immediately writes back
`Vacant(vacant.next_free)`, so the slot's net content is unchanged.  Both
paths end with `if self.is_empty() { self.clear() }`. -/
def take_all (s : MultiStash T) (key : Nat) : Option (Nat × T) × MultiStash T :=
  let index := key
  match s.entries[index]? with
  | none =>
      (none, if s.is_empty then s.clear else s)
  | some (Entry.Vacant next_free) =>
      let s1 := { s with entries := s.entries.set index (Entry.Vacant next_free) }
      (none, if s1.is_empty then s1.clear else s1)
  | some (Entry.Occupied remaining item) =>
      let s1 :=
        { s with
          entries := s.entries.set index (Entry.Vacant s.free),
          free := index,
          len_items := s.len_items - remaining.val,
          len_occupied := s.len_occupied - 1 }
      (some (remaining.val, item), if s1.is_empty then s1.clear else s1)

/-- `MultiStash::take_one`.  Decrements the remaining count at `key`; when
the count hits zero the slot is vacated exactly as in `take_all`.  The
source computes `NonZeroUsize::new(occupied.remaining.get().wrapping_sub(1))`;
since `remaining.get() ≥ 1` this is truncated subtraction.  Ends with
`if self.is_empty() { self.clear() }`. -/
def take_one (s : MultiStash T) (key : Nat) : Option (Nat × T) × MultiStash T :=
  let index := key
  match s.entries[index]? with
  | none =>
      (none, if s.is_empty then s.clear else s)
  | some (Entry.Vacant next_free) =>
      let s1 := { s with entries := s.entries.set index (Entry.Vacant next_free) }
      (none, if s1.is_empty then s1.clear else s1)
  | some (Entry.Occupied remaining item) =>
      match remaining.val - 1 with
      | 0 =>
          let s1 :=
            { s with
              entries := s.entries.set index (Entry.Vacant s.free),
              free := index,
              len_items := s.len_items - 1,
              len_occupied := s.len_occupied - 1 }
          (some (0, item), if s1.is_empty then s1.clear else s1)
      | r + 1 =>
          let s1 :=
            { s with
              entries := s.entries.set index (Entry.Occupied ⟨r + 1, Nat.succ_pos r⟩ item),
              len_items := s.len_items - 1 }
          (some (r + 1, item), if s1.is_empty then s1.clear else s1)

/-- `MultiStash::bump`: adds `amount` to the remaining count of the occupied
entry at `key`, returning the previous count; `none` (and no state change)
when the slot is vacant or out of bounds.  The overflow panic of the source
is unrepresentable on `Nat`.  Note that the source does **not** update
`len_items` here. -/
def bump (s : MultiStash T) (key : Nat) (amount : Nat) :
    Option Nat × MultiStash T :=
  let index := key
  match s.entries[index]? with
  | none => (none, s)
  | some (Entry.Vacant _) => (none, s)
  | some (Entry.Occupied old_amount item) =>
      (some old_amount.val,
        { s with
          entries := s.entries.set index
            (Entry.Occupied
              ⟨old_amount.val + amount,
               Nat.lt_of_lt_of_le old_amount.property (Nat.le_add_right _ _)⟩
              item) })

end MultiStash

/-! ## Observation functions on entry tables -/

variable {T : Type}

/-- The number of items an entry contributes: `remaining` for occupied
entries, `0` for vacant ones. -/
def entryItems : Entry T → Nat
  | Entry.Vacant _ => 0
  | Entry.Occupied remaining _ => remaining.val

/-- Whether an entry is occupied. -/
def isOccupied : Entry T → Bool
  | Entry.Occupied _ _ => true
  | Entry.Vacant _ => false

/-- Sum of the `remaining` counts over all occupied entries of a table. -/
def sumItems (entries : List (Entry T)) : Nat :=
  (entries.map entryItems).sum

/-- Number of occupied entries of a table. -/
def countOccupied (entries : List (Entry T)) : Nat :=
  entries.countP isOccupied

/-! ## The free-list chain

`FreeChain entries f L` says that following the `next_free` links from the
cursor `f` visits exactly the slots listed in `L` (in order), each of which
is vacant, and terminates at the sentinel `entries.length`. -/

inductive FreeChain (entries : List (Entry T)) : Nat → List Nat → Prop where
  | nil : FreeChain entries entries.length []
  | cons (i next_free : Nat) (rest : List Nat)
      (hget : entries[i]? = some (Entry.Vacant next_free))
      (htail : FreeChain entries next_free rest) :
      FreeChain entries i (i :: rest)

/-- The inductive invariant of `MultiStash` maintained by every public
operation: the occupied-entry counter is accurate, the free cursor heads a
duplicate-free chain of vacant slots terminated by the table length, and an
empty stash (no occupied entries) is always in the pristine `new` state
(this is the auto-clear policy of `take_all`/`take_one`). -/
def Inv (s : MultiStash T) : Prop :=
  s.len_occupied = countOccupied s.entries ∧
  (∃ L, FreeChain s.entries s.free L ∧ L.Nodup) ∧
  (s.len_occupied = 0 → s = MultiStash.new)

/-- The stash states reachable from `MultiStash::new` by the public
operations `put`, `take_all`, `take_one`, `bump` and `clear`.  A `put` step
exists only when `put` returns (i.e. does not hit its panic branch). -/
inductive Reachable : MultiStash T → Prop where
  | new : Reachable MultiStash.new
  | put (s : MultiStash T) (amount : NonZeroUsize) (item : T) (key : Nat)
      (s' : MultiStash T) (h : Reachable s)
      (hput : s.put amount item = some (key, s')) : Reachable s'
  | take_all (s : MultiStash T) (key : Nat) (h : Reachable s) :
      Reachable (s.take_all key).2
  | take_one (s : MultiStash T) (key : Nat) (h : Reachable s) :
      Reachable (s.take_one key).2
  | bump (s : MultiStash T) (key amount : Nat) (h : Reachable s) :
      Reachable (s.bump key amount).2
  | clear (s : MultiStash T) (h : Reachable s) : Reachable s.clear

/-! ## The read-only iterator (`Iter` from `src/iter.rs`)

The Rust iterator holds the count of not-yet-yielded occupied entries
(`remaining`) and an enumerated slice iterator; the latter is modelled as
the remaining list of `(index, entry)` pairs.  `Iter::new` starts from
`stash.len_occupied` and `stash.entries.iter().enumerate()`. -/

structure Iter (T : Type) where
  /-- The amount of remaining `Entry::Occupied` entries. -/
  remaining : Nat
  /-- The not-yet-visited `(index, entry)` pairs, front to back. -/
  iter : List (Nat × Entry T)

namespace Iter

/-- `Iter::new`. -/
def new (s : MultiStash T) : Iter T :=
  { remaining := s.len_occupied, iter := s.entries.enum }

/-- The loop body of `Iterator::next for Iter`: pop pairs from the front,
skipping vacant entries, until an occupied entry is produced. -/
def nextAux : Nat → List (Nat × Entry T) → Option ((Nat × Nat × T) × Iter T)
  | _, [] => none
  | remaining, (_, Entry.Vacant _) :: rest => nextAux remaining rest
  | remaining, (index, Entry.Occupied r item) :: rest =>
      some ((index, r.val, item), { remaining := remaining - 1, iter := rest })

/-- `Iterator::next for Iter`. -/
def next (it : Iter T) : Option ((Nat × Nat × T) × Iter T) :=
  nextAux it.remaining it.iter

/-- The loop body of `DoubleEndedIterator::next_back for Iter`, acting on
the *reversed* remaining range: pop pairs from the back, skipping vacant
entries, until an occupied entry is produced. -/
def nextBackAux : Nat → List (Nat × Entry T) → Option ((Nat × Nat × T) × Iter T)
  | _, [] => none
  | remaining, (_, Entry.Vacant _) :: revRest => nextBackAux remaining revRest
  | remaining, (index, Entry.Occupied r item) :: revRest =>
      some ((index, r.val, item),
        { remaining := remaining - 1, iter := revRest.reverse })

/-- `DoubleEndedIterator::next_back for Iter`. -/
def nextBack (it : Iter T) : Option ((Nat × Nat × T) × Iter T) :=
  nextBackAux it.remaining it.iter.reverse

/-- `ExactSizeIterator::len for Iter`: reports `remaining`. -/
def len (it : Iter T) : Nat :=
  it.remaining

/-- Repeatedly apply a stepping function (`next` or `nextBack`), collecting
the produced triples; `fuel` bounds the number of steps. -/
def collect (f : Iter T → Option ((Nat × Nat × T) × Iter T)) :
    Nat → Iter T → List (Nat × Nat × T)
  | 0, _ => []
  | fuel + 1, it =>
      match f it with
      | none => []
      | some (out, it') => out :: collect f fuel it'

/-- A full forward traversal: repeatedly call `next` until exhaustion
(`iter.length` steps of fuel always suffice). -/
def toList (it : Iter T) : List (Nat × Nat × T) :=
  collect next it.iter.length it

/-- A full backward traversal: repeatedly call `nextBack` until exhaustion. -/
def toListBack (it : Iter T) : List (Nat × Nat × T) :=
  collect nextBack it.iter.length it

end Iter

/-- One traversal step of the iterator, from either end. -/
inductive IterStep : Iter T → Iter T → Prop where
  | fwd (it it' : Iter T) (out : Nat × Nat × T) (h : it.next = some (out, it')) :
      IterStep it it'
  | bwd (it it' : Iter T) (out : Nat × Nat × T) (h : it.nextBack = some (out, it')) :
      IterStep it it'

/-- The occupied `(index, count, item)` triples among a list of
`(index, entry)` pairs, in order. -/
def occItems (l : List (Nat × Entry T)) : List (Nat × Nat × T) :=
  l.filterMap fun p =>
    match p.2 with
    | Entry.Occupied r item => some (p.1, r.val, item)
    | Entry.Vacant _ => none

/-- Number of occupied entries among `(index, entry)` pairs. -/
def countOccupiedPairs (l : List (Nat × Entry T)) : Nat :=
  l.countP fun p => isOccupied p.2

/-! ## Concrete executions used as evidence -/

open MultiStash in
/-- The scenario of the spec's stack-order-slot-reuse property: insert three
elements (counts 3, 2, 4), `take_all` handle 1 then handle 0, then insert
two more elements; collect the five returned keys. -/
def c2pipeline : Option (Nat × Nat × Nat × Nat × Nat) :=
  (put (new : MultiStash Nat) ⟨3, by decide⟩ 100).bind fun (k1, s1) =>
  (put s1 ⟨2, by decide⟩ 101).bind fun (k2, s2) =>
  (put s2 ⟨4, by decide⟩ 102).bind fun (k3, s3) =>
  (take_all s3 1).2 |> fun s4 =>
  (take_all s4 0).2 |> fun s5 =>
  (put s5 ⟨1, by decide⟩ 103).bind fun (k4, s6) =>
  (put s6 ⟨1, by decide⟩ 104).map fun (k5, _) => (k1, k2, k3, k4, k5)

open MultiStash in
/-- Evidence run for the `len_items` invariant: insert one element with
count 1, then `bump` it by 5; report the final `len_items` counter next to
the actual sum of remaining counts. -/
def c1pipeline : Option (Nat × Nat) :=
  (put (new : MultiStash Nat) ⟨1, by decide⟩ 7).bind fun (key, s1) =>
  (bump s1 key 5).2 |> fun s2 =>
  some (s2.len_items, sumItems s2.entries)

/-- Concrete example state: the result of `put(3, 100)` on an empty stash;
used to instantiate universally quantified theorems. -/
def exampleStash : MultiStash Nat :=
  { free := 1, len_items := 3, len_occupied := 1,
    entries := [Entry.Occupied ⟨3, by decide⟩ 100] }

/-! ## Helper lemmas on entry tables -/

@[simp] theorem sumItems_nil : sumItems ([] : List (Entry T)) = 0 := rfl

@[simp] theorem sumItems_cons (e : Entry T) (l : List (Entry T)) :
    sumItems (e :: l) = entryItems e + sumItems l := rfl

theorem sumItems_append (l1 l2 : List (Entry T)) :
    sumItems (l1 ++ l2) = sumItems l1 + sumItems l2 := by
  simp [sumItems]

@[simp] theorem countOccupied_nil : countOccupied ([] : List (Entry T)) = 0 := rfl

theorem countOccupied_cons (e : Entry T) (l : List (Entry T)) :
    countOccupied (e :: l) = countOccupied l + (if isOccupied e then 1 else 0) := by
  simp [countOccupied, List.countP_cons]

theorem countOccupied_append (l1 l2 : List (Entry T)) :
    countOccupied (l1 ++ l2) = countOccupied l1 + countOccupied l2 := by
  simp [countOccupied, List.countP_append]

theorem sumItems_set (l : List (Entry T)) (i : Nat) (e e' : Entry T)
    (h : l[i]? = some e) :
    sumItems (l.set i e') + entryItems e = sumItems l + entryItems e' := by
  induction l generalizing i with
  | nil => simp at h
  | cons a l ih =>
    cases i with
    | zero =>
      simp only [List.getElem?_cons_zero, Option.some.injEq] at h
      subst h
      simp only [List.set, sumItems_cons]
      omega
    | succ i =>
      simp only [List.getElem?_cons_succ] at h
      simp only [List.set, sumItems_cons]
      have := ih i h
      omega

theorem countOccupied_set (l : List (Entry T)) (i : Nat) (e e' : Entry T)
    (h : l[i]? = some e) :
    countOccupied (l.set i e') + (if isOccupied e then 1 else 0) =
      countOccupied l + (if isOccupied e' then 1 else 0) := by
  induction l generalizing i with
  | nil => simp at h
  | cons a l ih =>
    cases i with
    | zero =>
      simp only [List.getElem?_cons_zero, Option.some.injEq] at h
      subst h
      simp only [List.set, countOccupied_cons]
      omega
    | succ i =>
      simp only [List.getElem?_cons_succ] at h
      simp only [List.set, countOccupied_cons]
      have := ih i h
      omega

theorem set_getElem?_same (l : List (Entry T)) (i : Nat) (e : Entry T)
    (h : l[i]? = some e) : l.set i e = l := by
  induction l generalizing i with
  | nil => simp at h
  | cons a l ih =>
    cases i with
    | zero => simp_all
    | succ i => simp_all [List.set]

theorem countOccupied_pos_of_occupied (l : List (Entry T)) (i : Nat)
    (r : NonZeroUsize) (x : T) (h : l[i]? = some (Entry.Occupied r x)) :
    0 < countOccupied l := by
  have hmem : Entry.Occupied r x ∈ l := List.getElem?_mem h
  have : l.countP isOccupied ≠ 0 := by
    intro hzero
    rw [List.countP_eq_zero] at hzero
    exact absurd (hzero _ hmem) (by simp [isOccupied])
  exact Nat.pos_of_ne_zero this

/-! ## Helper lemmas on the free chain -/

theorem FreeChain.le_length {entries : List (Entry T)} {f : Nat} {L : List Nat}
    (h : FreeChain entries f L) : f ≤ entries.length := by
  cases h with
  | nil => exact Nat.le_refl _
  | cons i next_free rest hget _ =>
    exact Nat.le_of_lt (List.getElem?_eq_some.mp hget).1

theorem FreeChain.mem_vacant {entries : List (Entry T)} {f : Nat} {L : List Nat}
    (h : FreeChain entries f L) :
    ∀ i ∈ L, ∃ next_free, entries[i]? = some (Entry.Vacant next_free) := by
  induction h with
  | nil => intro i hi; simp at hi
  | cons j next_free rest hget htail ih =>
    intro i hi
    rcases List.mem_cons.mp hi with rfl | hi
    · exact ⟨next_free, hget⟩
    · exact ih i hi

theorem FreeChain.set_of_not_mem {entries : List (Entry T)} {f : Nat}
    {L : List Nat} (h : FreeChain entries f L) (j : Nat) (e : Entry T)
    (hj : j ∉ L) : FreeChain (entries.set j e) f L := by
  induction h with
  | nil =>
    have hlen : (entries.set j e).length = entries.length := List.length_set _ _ _
    rw [← hlen]
    exact FreeChain.nil
  | cons i next_free rest hget htail ih =>
    have hij : j ≠ i := fun hcontra => hj (hcontra ▸ List.mem_cons_self i rest)
    refine FreeChain.cons i next_free rest ?_ (ih (fun hr => hj (List.mem_cons_of_mem _ hr)))
    rw [List.getElem?_set_ne hij]
    exact hget

theorem FreeChain.eq_nil_of_length {entries : List (Entry T)} {L : List Nat}
    (h : FreeChain entries entries.length L) : L = [] := by
  cases h with
  | nil => rfl
  | cons i next_free rest hget htail =>
    have : entries.length < entries.length := (List.getElem?_eq_some.mp hget).1
    exact absurd this (Nat.lt_irrefl _)

theorem FreeChain.head_structure {entries : List (Entry T)} {f : Nat}
    {L : List Nat} (h : FreeChain entries f L) (hne : f ≠ entries.length) :
    ∃ next_free rest, L = f :: rest ∧
      entries[f]? = some (Entry.Vacant next_free) ∧
      FreeChain entries next_free rest := by
  cases h with
  | nil => exact absurd rfl hne
  | cons i next_free rest hget htail => exact ⟨next_free, rest, rfl, hget, htail⟩

/-! ## Invariant preservation -/

theorem inv_new : Inv (MultiStash.new : MultiStash T) := by
  refine ⟨rfl, ⟨[], ?_, List.nodup_nil⟩, fun _ => rfl⟩
  exact FreeChain.nil

theorem inv_clear (s : MultiStash T) : Inv s.clear := by
  refine ⟨rfl, ⟨[], ?_, List.nodup_nil⟩, fun _ => rfl⟩
  exact FreeChain.nil

theorem inv_guard (s : MultiStash T)
    (h1 : s.len_occupied = countOccupied s.entries)
    (h2 : ∃ L, FreeChain s.entries s.free L ∧ L.Nodup) :
    Inv (if s.is_empty then s.clear else s) := by
  cases hempt : s.is_empty with
  | true =>
    rw [if_pos rfl]
    exact inv_clear s
  | false =>
    have hne : s.len_occupied ≠ 0 := by
      intro hzero
      simp [MultiStash.is_empty, hzero] at hempt
    rw [if_neg (by simp)]
    exact ⟨h1, h2, fun hzero => absurd hzero hne⟩

theorem inv_put (s : MultiStash T) (amount : NonZeroUsize) (item : T)
    (key : Nat) (s' : MultiStash T) (hs : Inv s)
    (hput : s.put amount item = some (key, s')) : Inv s' := by
  obtain ⟨h1, ⟨L, hL, hnd⟩, _⟩ := hs
  simp only [MultiStash.put] at hput
  split at hput
  · -- append path: `free == len_entries`
    rename_i hfree
    simp only [Option.some.injEq, Prod.mk.injEq] at hput
    obtain ⟨-, rfl⟩ := hput
    refine ⟨?_, ⟨[], ?_, List.nodup_nil⟩, fun hzero => absurd hzero (Nat.succ_ne_zero _)⟩
    · show s.len_occupied + 1 = countOccupied (s.entries ++ [Entry.Occupied amount item])
      rw [countOccupied_append]
      have hone : countOccupied [Entry.Occupied amount item] = 1 := by
        simp [countOccupied, List.countP_cons, isOccupied]
      omega
    · show FreeChain (s.entries ++ [Entry.Occupied amount item]) (s.free + 1) []
      have hlen : s.free + 1 =
          (s.entries ++ [Entry.Occupied amount item]).length := by
        simp only [List.length_append, List.length_cons, List.length_nil]
        simp only [MultiStash.len_entries] at hfree
        omega
      rw [hlen]
      exact FreeChain.nil
  · -- reuse path: claim the slot at the free cursor
    rename_i hfree
    split at hput
    · rename_i next_free hget
      simp only [Option.some.injEq, Prod.mk.injEq] at hput
      obtain ⟨-, rfl⟩ := hput
      have hfree' : s.free ≠ s.entries.length := by
        simpa [MultiStash.len_entries] using hfree
      obtain ⟨nf, rest, rfl, hget', htail⟩ := FreeChain.head_structure hL hfree'
      have hnf : nf = next_free := by
        rw [hget] at hget'
        cases hget'
        rfl
      rw [hnf] at htail
      have hnotmem : s.free ∉ rest := (List.nodup_cons.mp hnd).1
      refine ⟨?_, ⟨rest, ?_, (List.nodup_cons.mp hnd).2⟩,
        fun hzero => absurd hzero (Nat.succ_ne_zero _)⟩
      · show s.len_occupied + 1 =
          countOccupied (s.entries.set s.free (Entry.Occupied amount item))
        have hcnt := countOccupied_set s.entries s.free
          (Entry.Vacant next_free) (Entry.Occupied amount item) hget
        simp [isOccupied] at hcnt
        omega
      · show FreeChain (s.entries.set s.free (Entry.Occupied amount item)) next_free rest
        exact FreeChain.set_of_not_mem htail s.free _ hnotmem
    · exact absurd hput (by simp)

theorem inv_take_all (s : MultiStash T) (key : Nat) (hs : Inv s) :
    Inv (s.take_all key).2 := by
  obtain ⟨h1, ⟨L, hL, hnd⟩, h0⟩ := hs
  simp only [MultiStash.take_all]
  split
  · exact inv_guard s h1 ⟨L, hL, hnd⟩
  · rename_i next_free hget
    have hset : s.entries.set key (Entry.Vacant next_free) = s.entries :=
      set_getElem?_same _ _ _ hget
    rw [hset]
    exact inv_guard s h1 ⟨L, hL, hnd⟩
  · rename_i remaining item hget
    refine inv_guard _ ?_ ?_
    · show s.len_occupied - 1 =
        countOccupied (s.entries.set key (Entry.Vacant s.free))
      have hcnt := countOccupied_set s.entries key
        (Entry.Occupied remaining item) (Entry.Vacant s.free) hget
      have hpos := countOccupied_pos_of_occupied s.entries key remaining item hget
      simp [isOccupied] at hcnt
      omega
    · have hknotin : key ∉ L := by
        intro hmem
        obtain ⟨nf, hvac⟩ := FreeChain.mem_vacant hL key hmem
        rw [hget] at hvac
        cases hvac
      have hkeylt : key < s.entries.length := (List.getElem?_eq_some.mp hget).1
      refine ⟨key :: L, FreeChain.cons key s.free L ?_ ?_,
        List.nodup_cons.mpr ⟨hknotin, hnd⟩⟩
      · rw [List.getElem?_set_self (by simpa using hkeylt)]
      · exact FreeChain.set_of_not_mem hL key _ hknotin

theorem inv_take_one (s : MultiStash T) (key : Nat) (hs : Inv s) :
    Inv (s.take_one key).2 := by
  obtain ⟨h1, ⟨L, hL, hnd⟩, h0⟩ := hs
  simp only [MultiStash.take_one]
  split
  · exact inv_guard s h1 ⟨L, hL, hnd⟩
  · rename_i next_free hget
    have hset : s.entries.set key (Entry.Vacant next_free) = s.entries :=
      set_getElem?_same _ _ _ hget
    rw [hset]
    exact inv_guard s h1 ⟨L, hL, hnd⟩
  · rename_i remaining item hget
    have hknotin : key ∉ L := by
      intro hmem
      obtain ⟨nf, hvac⟩ := FreeChain.mem_vacant hL key hmem
      rw [hget] at hvac
      cases hvac
    have hkeylt : key < s.entries.length := (List.getElem?_eq_some.mp hget).1
    split
    · -- the count dropped to zero: the slot is vacated
      refine inv_guard _ ?_ ?_
      · show s.len_occupied - 1 =
          countOccupied (s.entries.set key (Entry.Vacant s.free))
        have hcnt := countOccupied_set s.entries key
          (Entry.Occupied remaining item) (Entry.Vacant s.free) hget
        have hpos := countOccupied_pos_of_occupied s.entries key remaining item hget
        simp [isOccupied] at hcnt
        omega
      · refine ⟨key :: L, FreeChain.cons key s.free L ?_ ?_,
          List.nodup_cons.mpr ⟨hknotin, hnd⟩⟩
        · rw [List.getElem?_set_self (by simpa using hkeylt)]
        · exact FreeChain.set_of_not_mem hL key _ hknotin
    · -- the entry stays occupied with a decremented count
      rename_i r hr
      refine inv_guard _ ?_ ?_
      · show s.len_occupied =
          countOccupied (s.entries.set key
            (Entry.Occupied ⟨r + 1, Nat.succ_pos r⟩ item))
        have hcnt := countOccupied_set s.entries key
          (Entry.Occupied remaining item)
          (Entry.Occupied ⟨r + 1, Nat.succ_pos r⟩ item) hget
        simp [isOccupied] at hcnt
        omega
      · exact ⟨L, FreeChain.set_of_not_mem hL key _ hknotin, hnd⟩

theorem inv_bump (s : MultiStash T) (key amount : Nat) (hs : Inv s) :
    Inv (s.bump key amount).2 := by
  obtain ⟨h1, ⟨L, hL, hnd⟩, h0⟩ := hs
  simp only [MultiStash.bump]
  split
  · exact ⟨h1, ⟨L, hL, hnd⟩, h0⟩
  · exact ⟨h1, ⟨L, hL, hnd⟩, h0⟩
  · rename_i old_amount item hget
    have hknotin : key ∉ L := by
      intro hmem
      obtain ⟨nf, hvac⟩ := FreeChain.mem_vacant hL key hmem
      rw [hget] at hvac
      cases hvac
    have hpos := countOccupied_pos_of_occupied s.entries key old_amount item hget
    refine ⟨?_, ⟨L, FreeChain.set_of_not_mem hL key _ hknotin, hnd⟩,
      fun hzero => ?_⟩
    · show s.len_occupied = countOccupied (s.entries.set key _)
      have hcnt := countOccupied_set s.entries key
        (Entry.Occupied old_amount item)
        (Entry.Occupied
          ⟨old_amount.val + amount,
           Nat.lt_of_lt_of_le old_amount.property (Nat.le_add_right _ _)⟩ item) hget
      simp [isOccupied] at hcnt
      omega
    · have hz : s.len_occupied = 0 := hzero
      exact absurd (h1.symm.trans hz) (Nat.pos_iff_ne_zero.mp hpos)

/-- Every reachable stash satisfies the structural invariant. -/
theorem reachable_inv (s : MultiStash T) (h : Reachable s) : Inv s := by
  induction h with
  | new => exact inv_new
  | put s amount item key s' hr hput ih => exact inv_put s amount item key s' ih hput
  | take_all s key hr ih => exact inv_take_all s key ih
  | take_one s key hr ih => exact inv_take_one s key ih
  | bump s key amount hr ih => exact inv_bump s key amount ih
  | clear s hr ih => exact inv_clear s

/-! ## Further helper lemmas -/

theorem exampleStash_reachable : Reachable exampleStash :=
  Reachable.put MultiStash.new ⟨3, by decide⟩ 100 0 exampleStash Reachable.new rfl

theorem guard_eq_self (s : MultiStash T)
    (h0 : s.len_occupied = 0 → s = MultiStash.new) :
    (if s.is_empty then s.clear else s) = s := by
  cases hempt : s.is_empty with
  | true =>
    rw [if_pos rfl]
    have hs : s = MultiStash.new := h0 (by simpa [MultiStash.is_empty] using hempt)
    rw [hs]
    rfl
  | false => rw [if_neg (by simp)]

theorem guard_empty (s1 : MultiStash T)
    (h : (if s1.is_empty then s1.clear else s1).len_occupied = 0) :
    (if s1.is_empty then s1.clear else s1) = MultiStash.new := by
  cases hempt : s1.is_empty with
  | true =>
    rw [if_pos rfl]
    rfl
  | false =>
    rw [if_neg (by simp [hempt])] at h ⊢
    exact absurd h (by simpa [MultiStash.is_empty] using hempt)

/-! ## Claim theorems -/

/-- C10: for every stash reachable from the empty stash, the free cursor is
at most the table length; whenever it is strictly below the table length the
entry it addresses is vacant; and consequently `put` never hits its
`unreachable!` panic branch (modelled by `put` returning `some`). -/
theorem free_cursor_invariant (s : MultiStash T) (h : Reachable s) :
    s.free ≤ s.len_entries ∧
    (s.free < s.len_entries →
      ∃ next_free, s.entries[s.free]? = some (Entry.Vacant next_free)) ∧
    (∀ amount item, (s.put amount item).isSome) := by
  obtain ⟨h1, ⟨L, hL, hnd⟩, h0⟩ := reachable_inv s h
  have hle : s.free ≤ s.entries.length := hL.le_length
  refine ⟨hle, fun hlt => ?_, fun amount item => ?_⟩
  · obtain ⟨nf, rest, -, hget, -⟩ :=
      FreeChain.head_structure hL (Nat.ne_of_lt hlt)
    exact ⟨nf, hget⟩
  · by_cases hfree : s.free = s.len_entries
    · simp [MultiStash.put, hfree]
    · obtain ⟨nf, rest, -, hget, -⟩ := FreeChain.head_structure hL
        (by simpa [MultiStash.len_entries] using hfree)
      simp [MultiStash.put, hfree, hget]

/-- Witness for C10 at the concrete reachable state `exampleStash`. -/
theorem free_cursor_invariant_witness :
    exampleStash.free ≤ exampleStash.len_entries ∧
    (exampleStash.free < exampleStash.len_entries →
      ∃ next_free,
        exampleStash.entries[exampleStash.free]? = some (Entry.Vacant next_free)) ∧
    (∀ amount item, (exampleStash.put amount item).isSome) :=
  free_cursor_invariant exampleStash exampleStash_reachable

/-- C3: whenever a `take_all` or `take_one` call removes an element and
leaves the occupied count at zero, the resulting stash is fully reset
(empty table, cursor `0`, counters `0`), and the next `put` returns the
key with index `0`. -/
theorem auto_clear_on_empty (s : MultiStash T) (h : Reachable s) (key : Nat) :
    (∀ result s', s.take_all key = (some result, s') → s'.len_occupied = 0 →
      s'.entries = [] ∧ s'.free = 0 ∧ s'.len_items = 0 ∧
      ∀ amount item, ∃ s'', s'.put amount item = some (0, s'')) ∧
    (∀ result s', s.take_one key = (some result, s') → s'.len_occupied = 0 →
      s'.entries = [] ∧ s'.free = 0 ∧ s'.len_items = 0 ∧
      ∀ amount item, ∃ s'', s'.put amount item = some (0, s'')) := by
  constructor
  · intro result s' heq hzero
    simp only [MultiStash.take_all] at heq
    split at heq
    · simp at heq
    · simp at heq
    · rename_i remaining item hget
      simp only [Prod.mk.injEq, Option.some.injEq] at heq
      obtain ⟨-, hs'⟩ := heq
      have hnew : s' = MultiStash.new := by
        rw [← hs'] at hzero ⊢
        exact guard_empty _ hzero
      subst hnew
      exact ⟨rfl, rfl, rfl, fun amount item => ⟨_, rfl⟩⟩
  · intro result s' heq hzero
    simp only [MultiStash.take_one] at heq
    split at heq
    · simp at heq
    · simp at heq
    · rename_i remaining item hget
      split at heq
      · simp only [Prod.mk.injEq, Option.some.injEq] at heq
        obtain ⟨-, hs'⟩ := heq
        have hnew : s' = MultiStash.new := by
          rw [← hs'] at hzero ⊢
          exact guard_empty _ hzero
        subst hnew
        exact ⟨rfl, rfl, rfl, fun amount item => ⟨_, rfl⟩⟩
      · simp only [Prod.mk.injEq, Option.some.injEq] at heq
        obtain ⟨-, hs'⟩ := heq
        have hnew : s' = MultiStash.new := by
          rw [← hs'] at hzero ⊢
          exact guard_empty _ hzero
        subst hnew
        exact ⟨rfl, rfl, rfl, fun amount item => ⟨_, rfl⟩⟩

/-- Witness for C3: taking the single element out of `exampleStash`. -/
theorem auto_clear_on_empty_witness :
    (∀ result s', exampleStash.take_all 0 = (some result, s') →
      s'.len_occupied = 0 →
      s'.entries = [] ∧ s'.free = 0 ∧ s'.len_items = 0 ∧
      ∀ amount item, ∃ s'', s'.put amount item = some (0, s'')) ∧
    (∀ result s', exampleStash.take_one 0 = (some result, s') →
      s'.len_occupied = 0 →
      s'.entries = [] ∧ s'.free = 0 ∧ s'.len_items = 0 ∧
      ∀ amount item, ∃ s'', s'.put amount item = some (0, s'')) :=
  auto_clear_on_empty exampleStash exampleStash_reachable 0

/-- C4: on every reachable stash, a key that is out of bounds or addresses
a vacant slot makes `get`, `get_mut`, `take_all`, `take_one` and `bump` all
return `none` (none of them can panic in the model: they are total
functions), and the stash state is unchanged on that path. -/
theorem miss_returns_none_no_change (s : MultiStash T) (h : Reachable s)
    (key : Nat)
    (hmiss : s.entries[key]? = none ∨
      ∃ next_free, s.entries[key]? = some (Entry.Vacant next_free)) :
    s.get key = none ∧ s.get_mut key = none ∧
    s.take_all key = (none, s) ∧ s.take_one key = (none, s) ∧
    ∀ amount, s.bump key amount = (none, s) := by
  obtain ⟨h1, hchain, h0⟩ := reachable_inv s h
  rcases hmiss with hnone | ⟨next_free, hvac⟩
  · refine ⟨?_, ?_, ?_, ?_, fun amount => ?_⟩
    · simp [MultiStash.get, hnone]
    · simp [MultiStash.get_mut, hnone]
    · simp only [MultiStash.take_all, hnone]
      rw [guard_eq_self s h0]
    · simp only [MultiStash.take_one, hnone]
      rw [guard_eq_self s h0]
    · simp [MultiStash.bump, hnone]
  · have hset : s.entries.set key (Entry.Vacant next_free) = s.entries :=
      set_getElem?_same _ _ _ hvac
    refine ⟨?_, ?_, ?_, ?_, fun amount => ?_⟩
    · simp [MultiStash.get, hvac]
    · simp [MultiStash.get_mut, hvac]
    · simp only [MultiStash.take_all, hvac, hset]
      rw [guard_eq_self s h0]
    · simp only [MultiStash.take_one, hvac, hset]
      rw [guard_eq_self s h0]
    · simp [MultiStash.bump, hvac]

/-- Witness for C4: key 5 is out of bounds in `exampleStash`. -/
theorem miss_returns_none_no_change_witness :
    exampleStash.get 5 = none ∧ exampleStash.get_mut 5 = none ∧
    exampleStash.take_all 5 = (none, exampleStash) ∧
    exampleStash.take_one 5 = (none, exampleStash) ∧
    ∀ amount, exampleStash.bump 5 amount = (none, exampleStash) :=
  miss_returns_none_no_change exampleStash exampleStash_reachable 5
    (Or.inl (by decide))

/-- C5: on every reachable stash, `put` appends a new occupied entry and
returns the old table length as key when the free cursor equals the table
length (the cursor then equals the new table length); otherwise it returns
the current free cursor as key, overwrites the vacant entry at the cursor,
and moves the cursor to that entry's `next_free` link. -/
theorem put_free_list_behavior (s : MultiStash T) (h : Reachable s)
    (amount : NonZeroUsize) (item : T) :
    (s.free = s.len_entries →
      ∃ s', s.put amount item = some (s.len_entries, s') ∧
        s'.entries = s.entries ++ [Entry.Occupied amount item] ∧
        s'.free = s'.len_entries) ∧
    (s.free ≠ s.len_entries →
      ∃ next_free s', s.entries[s.free]? = some (Entry.Vacant next_free) ∧
        s.put amount item = some (s.free, s') ∧
        s'.entries = s.entries.set s.free (Entry.Occupied amount item) ∧
        s'.free = next_free) := by
  obtain ⟨h1, ⟨L, hL, hnd⟩, h0⟩ := reachable_inv s h
  constructor
  · intro hfree
    refine ⟨{ free := s.free + 1, len_items := s.len_items + amount.val,
              len_occupied := s.len_occupied + 1,
              entries := s.entries ++ [Entry.Occupied amount item] },
      ?_, rfl, ?_⟩
    · simp [MultiStash.put, hfree]
    · show s.free + 1 = (s.entries ++ [Entry.Occupied amount item]).length
      simp only [List.length_append, List.length_cons, List.length_nil]
      simp only [MultiStash.len_entries] at hfree
      omega
  · intro hfree
    obtain ⟨nf, rest, -, hget, -⟩ := FreeChain.head_structure hL
      (by simpa [MultiStash.len_entries] using hfree)
    refine ⟨nf,
      { free := nf, len_items := s.len_items + amount.val,
        len_occupied := s.len_occupied + 1,
        entries := s.entries.set s.free (Entry.Occupied amount item) },
      hget, ?_, rfl, rfl⟩
    simp [MultiStash.put, hfree, hget]

/-- Witness for C5 at `exampleStash` (whose free list is empty). -/
theorem put_free_list_behavior_witness :
    (exampleStash.free = exampleStash.len_entries →
      ∃ s', exampleStash.put ⟨2, by decide⟩ 55 =
          some (exampleStash.len_entries, s') ∧
        s'.entries = exampleStash.entries ++ [Entry.Occupied ⟨2, by decide⟩ 55] ∧
        s'.free = s'.len_entries) ∧
    (exampleStash.free ≠ exampleStash.len_entries →
      ∃ next_free s',
        exampleStash.entries[exampleStash.free]? =
          some (Entry.Vacant next_free) ∧
        exampleStash.put ⟨2, by decide⟩ 55 = some (exampleStash.free, s') ∧
        s'.entries = exampleStash.entries.set exampleStash.free
          (Entry.Occupied ⟨2, by decide⟩ 55) ∧
        s'.free = next_free) :=
  put_free_list_behavior exampleStash exampleStash_reachable ⟨2, by decide⟩ 55

/-- C7: on every reachable stash, `put(n, x)` succeeds and an immediate
`get` of the returned key yields `some (n, x)`.  `get` is a pure function
of the stash in this model (it returns no new state), so it cannot change
the stash. -/
theorem put_get_round_trip (s : MultiStash T) (h : Reachable s)
    (amount : NonZeroUsize) (item : T) :
    ∃ key s', s.put amount item = some (key, s') ∧
      s'.get key = some (amount.val, item) := by
  obtain ⟨h1, ⟨L, hL, hnd⟩, h0⟩ := reachable_inv s h
  by_cases hfree : s.free = s.len_entries
  · refine ⟨s.free,
      { free := s.free + 1, len_items := s.len_items + amount.val,
        len_occupied := s.len_occupied + 1,
        entries := s.entries ++ [Entry.Occupied amount item] },
      by simp [MultiStash.put, hfree], ?_⟩
    show (match (s.entries ++ [Entry.Occupied amount item])[s.free]? with
      | some (Entry.Occupied remaining item) => some (remaining.val, item)
      | _ => none) = some (amount.val, item)
    have hlen : (s.entries ++ [Entry.Occupied amount item])[s.free]? =
        some (Entry.Occupied amount item) := by
      rw [show s.free = s.entries.length from by
        simpa [MultiStash.len_entries] using hfree]
      simp
    rw [hlen]
  · obtain ⟨nf, rest, -, hget, -⟩ := FreeChain.head_structure hL
      (by simpa [MultiStash.len_entries] using hfree)
    have hlt : s.free < s.entries.length := (List.getElem?_eq_some.mp hget).1
    refine ⟨s.free,
      { free := nf, len_items := s.len_items + amount.val,
        len_occupied := s.len_occupied + 1,
        entries := s.entries.set s.free (Entry.Occupied amount item) },
      by simp [MultiStash.put, hfree, hget], ?_⟩
    show (match (s.entries.set s.free
        (Entry.Occupied amount item))[s.free]? with
      | some (Entry.Occupied remaining item) => some (remaining.val, item)
      | _ => none) = some (amount.val, item)
    rw [List.getElem?_set_self (by simpa using hlt)]

/-- Witness for C7: `put(4, 9)` into `exampleStash` and read it back. -/
theorem put_get_round_trip_witness :
    ∃ key s', exampleStash.put ⟨4, by decide⟩ 9 = some (key, s') ∧
      s'.get key = some ((⟨4, by decide⟩ : NonZeroUsize).val, 9) :=
  put_get_round_trip exampleStash exampleStash_reachable ⟨4, by decide⟩ 9

/-- C8: if key `k` addresses an occupied entry with count `c`, then
`bump(k, 0)` returns `some c` and leaves the whole stash unchanged, and for
every `k > 0`, `bump` returns `some c` and the stored count afterwards is
exactly `c + k` (overflow is unrepresentable on `Nat`).  This needs no
reachability hypothesis. -/
theorem bump_returns_previous_count (s : MultiStash T) (key : Nat)
    (c : NonZeroUsize) (x : T)
    (hget : s.entries[key]? = some (Entry.Occupied c x)) :
    s.bump key 0 = (some c.val, s) ∧
    ∀ amount, 0 < amount →
      (s.bump key amount).1 = some c.val ∧
      (s.bump key amount).2.get key = some (c.val + amount, x) := by
  have hlt : key < s.entries.length := (List.getElem?_eq_some.mp hget).1
  constructor
  · have hc : (⟨c.val + 0,
        Nat.lt_of_lt_of_le c.property (Nat.le_add_right _ _)⟩ : NonZeroUsize) = c :=
      Subtype.ext (Nat.add_zero _)
    have hsetsame : s.entries.set key (Entry.Occupied c x) = s.entries :=
      set_getElem?_same _ _ _ hget
    simp only [MultiStash.bump, hget]
    rw [hc, hsetsame]
  · intro amount hpos
    constructor
    · simp [MultiStash.bump, hget]
    · simp only [MultiStash.bump, hget]
      show (match (s.entries.set key _)[key]? with
        | some (Entry.Occupied remaining item) => some (remaining.val, item)
        | _ => none) = some (c.val + amount, x)
      rw [List.getElem?_set_self (by simpa using hlt)]

/-- Witness for C8 at `exampleStash` (count 3 at key 0), bumping by 2. -/
theorem bump_returns_previous_count_witness :
    exampleStash.bump 0 0 = (some (3 : Nat), exampleStash) ∧
    ∀ amount, 0 < amount →
      (exampleStash.bump 0 amount).1 = some (3 : Nat) ∧
      (exampleStash.bump 0 amount).2.get 0 = some (3 + amount, 100) :=
  bump_returns_previous_count exampleStash 0 ⟨3, by decide⟩ 100 rfl

theorem guard_nonempty (s1 : MultiStash T) (h : s1.len_occupied ≠ 0) :
    (if s1.is_empty then s1.clear else s1) = s1 := by
  rw [if_neg (by simp [MultiStash.is_empty, h])]

theorem take_one_at_three (s : MultiStash T) (key : Nat) (x : T)
    (hget : s.entries[key]? = some (Entry.Occupied ⟨3, by decide⟩ x))
    (hocc : s.len_occupied ≠ 0) :
    s.take_one key = (some (2, x),
      { s with
        entries := s.entries.set key (Entry.Occupied ⟨2, by decide⟩ x),
        len_items := s.len_items - 1 }) := by
  have hstep : s.take_one key = (some (2, x),
      if ({ s with
            entries := s.entries.set key (Entry.Occupied ⟨2, by decide⟩ x),
            len_items := s.len_items - 1 } : MultiStash T).is_empty
      then MultiStash.clear
        { s with
          entries := s.entries.set key (Entry.Occupied ⟨2, by decide⟩ x),
          len_items := s.len_items - 1 }
      else { s with
             entries := s.entries.set key (Entry.Occupied ⟨2, by decide⟩ x),
             len_items := s.len_items - 1 }) := by
    simp only [MultiStash.take_one, hget]
  rw [hstep, guard_nonempty]
  exact hocc

theorem take_one_at_two (s : MultiStash T) (key : Nat) (x : T)
    (hget : s.entries[key]? = some (Entry.Occupied ⟨2, by decide⟩ x))
    (hocc : s.len_occupied ≠ 0) :
    s.take_one key = (some (1, x),
      { s with
        entries := s.entries.set key (Entry.Occupied ⟨1, by decide⟩ x),
        len_items := s.len_items - 1 }) := by
  have hstep : s.take_one key = (some (1, x),
      if ({ s with
            entries := s.entries.set key (Entry.Occupied ⟨1, by decide⟩ x),
            len_items := s.len_items - 1 } : MultiStash T).is_empty
      then MultiStash.clear
        { s with
          entries := s.entries.set key (Entry.Occupied ⟨1, by decide⟩ x),
          len_items := s.len_items - 1 }
      else { s with
             entries := s.entries.set key (Entry.Occupied ⟨1, by decide⟩ x),
             len_items := s.len_items - 1 }) := by
    simp only [MultiStash.take_one, hget]
  rw [hstep, guard_nonempty]
  exact hocc

theorem take_one_at_one_fst (s : MultiStash T) (key : Nat) (x : T)
    (hget : s.entries[key]? = some (Entry.Occupied ⟨1, by decide⟩ x)) :
    (s.take_one key).1 = some (0, x) := by
  simp only [MultiStash.take_one, hget]

theorem take_one_vacate_snd (s : MultiStash T) (key : Nat) (x : T)
    (hget : s.entries[key]? = some (Entry.Occupied ⟨1, by decide⟩ x)) :
    (s.take_one key).2 = MultiStash.new ∨
    ((s.take_one key).2).entries[key]? = some (Entry.Vacant s.free) := by
  simp only [MultiStash.take_one, hget]
  split
  · left
    rfl
  · right
    exact List.getElem?_set_self
      (by simpa using (List.getElem?_eq_some.mp hget).1)

/-- C6: on a reachable stash with an occupied entry of count 3 at key `k`,
three consecutive `take_one(k)` calls return `(2, x)`, `(1, x)`, `(0, x)`;
the third call vacates the slot and a fourth call returns `none`. -/
theorem take_one_count_three_sequence (s : MultiStash T) (h : Reachable s)
    (key : Nat) (x : T) (r : NonZeroUsize) (hval : r.val = 3)
    (hget : s.entries[key]? = some (Entry.Occupied r x)) :
    ∃ s1 s2 s3,
      s.take_one key = (some (2, x), s1) ∧
      s1.take_one key = (some (1, x), s2) ∧
      s2.take_one key = (some (0, x), s3) ∧
      (∀ r' y, s3.entries[key]? ≠ some (Entry.Occupied r' y)) ∧
      (s3.take_one key).1 = none := by
  obtain ⟨h1, -, -⟩ := reachable_inv s h
  have hpos := countOccupied_pos_of_occupied s.entries key r x hget
  have hocc : s.len_occupied ≠ 0 := by omega
  have hr3 : r = (⟨3, by decide⟩ : NonZeroUsize) := Subtype.ext hval
  rw [hr3] at hget
  have hlt : key < s.entries.length := (List.getElem?_eq_some.mp hget).1
  have hget2 : (s.entries.set key (Entry.Occupied ⟨2, by decide⟩ x))[key]? =
      some (Entry.Occupied ⟨2, by decide⟩ x) :=
    List.getElem?_set_self (by simpa using hlt)
  have hget3 : (s.entries.set key (Entry.Occupied ⟨1, by decide⟩ x))[key]? =
      some (Entry.Occupied ⟨1, by decide⟩ x) :=
    List.getElem?_set_self (by simpa using hlt)
  refine ⟨{ s with
            entries := s.entries.set key (Entry.Occupied ⟨2, by decide⟩ x),
            len_items := s.len_items - 1 },
          { s with
            entries := s.entries.set key (Entry.Occupied ⟨1, by decide⟩ x),
            len_items := s.len_items - 1 - 1 },
          (MultiStash.take_one
            { s with
              entries := s.entries.set key (Entry.Occupied ⟨1, by decide⟩ x),
              len_items := s.len_items - 1 - 1 } key).2,
          ?_, ?_, ?_, ?_, ?_⟩
  · exact take_one_at_three s key x hget hocc
  · have h2 := take_one_at_two
      { s with
        entries := s.entries.set key (Entry.Occupied ⟨2, by decide⟩ x),
        len_items := s.len_items - 1 } key x hget2 hocc
    simpa only [List.set_set] using h2
  · exact Prod.ext (take_one_at_one_fst
      { s with
        entries := s.entries.set key (Entry.Occupied ⟨1, by decide⟩ x),
        len_items := s.len_items - 1 - 1 } key x hget3) rfl
  · intro r' y
    rcases take_one_vacate_snd
      { s with
        entries := s.entries.set key (Entry.Occupied ⟨1, by decide⟩ x),
        len_items := s.len_items - 1 - 1 } key x hget3 with hnew | hvac
    · rw [hnew]
      simp [MultiStash.new]
    · rw [hvac]
      simp
  · rcases take_one_vacate_snd
      { s with
        entries := s.entries.set key (Entry.Occupied ⟨1, by decide⟩ x),
        len_items := s.len_items - 1 - 1 } key x hget3 with hnew | hvac
    · rw [hnew]
      simp [MultiStash.take_one, MultiStash.new]
    · generalize hS : (MultiStash.take_one
        { s with
          entries := s.entries.set key (Entry.Occupied ⟨1, by decide⟩ x),
          len_items := s.len_items - 1 - 1 } key).2 = S at hvac ⊢
      simp only [MultiStash.take_one, hvac]

/-- Witness for C6 at `exampleStash`, whose entry at key 0 has count 3. -/
theorem take_one_count_three_sequence_witness :
    ∃ s1 s2 s3,
      exampleStash.take_one 0 = (some (2, 100), s1) ∧
      s1.take_one 0 = (some (1, 100), s2) ∧
      s2.take_one 0 = (some (0, 100), s3) ∧
      (∀ r' y, s3.entries[0]? ≠ some (Entry.Occupied r' y)) ∧
      (s3.take_one 0).1 = none :=
  take_one_count_three_sequence exampleStash exampleStash_reachable 0 100
    ⟨3, by decide⟩ rfl rfl

/-- C2 counterexample: running the exact scenario of the claim (insert
three elements with counts 3, 2, 4, `take_all` handle 1 then handle 0,
insert two more elements) yields key 0 for the fourth insertion and key 1
for the fifth — not key 1 and key 0 as the claim states.  The free list is
a stack, and slot 0 (vacated last) is reused first. -/
theorem stack_reuse_keys_counterexample :
    c2pipeline = some (0, 1, 2, 0, 1) ∧ c2pipeline ≠ some (0, 1, 2, 1, 0) := by
  constructor
  · decide
  · decide

/-- C2 amended: starting from an empty stash, inserting A, B, C (any
positive counts) yields handles 0, 1, 2; after `take_all` on handle 1 and
then on handle 0, inserting D and E yields D at handle 0 and E at handle 1
(most-recently-vacated slot reused first). -/
theorem stack_reuse_order (T : Type) (A B C D E : T)
    (na nb nc nd ne : NonZeroUsize) :
    ∃ sA sB sC s4 s5 sD sE,
      MultiStash.put (MultiStash.new : MultiStash T) na A = some (0, sA) ∧
      sA.put nb B = some (1, sB) ∧
      sB.put nc C = some (2, sC) ∧
      sC.take_all 1 = (some (nb.val, B), s4) ∧
      s4.take_all 0 = (some (na.val, A), s5) ∧
      s5.put nd D = some (0, sD) ∧
      sD.put ne E = some (1, sE) :=
  ⟨_, _, _, _, _, _, _, rfl, rfl, rfl, rfl, rfl, rfl, rfl⟩

/-- C1 (code bug evidence): after `put(1, 7)` and `bump(key, 5)` the
`len_items` counter is still `1`, while the sum of the `remaining` counts
over all occupied entries is `6` — `bump` does not update `len_items`, so
the claimed invariant `len_items = sum of remaining` is broken by `bump`. -/
theorem bump_len_items_divergence :
    c1pipeline = some (1, 6) ∧ (1 : Nat) ≠ 6 := by
  constructor
  · decide
  · decide

/-! ## Iterator lemmas -/

theorem occItems_cons_vacant (i nf : Nat) (l : List (Nat × Entry T)) :
    occItems ((i, Entry.Vacant nf) :: l) = occItems l := rfl

theorem occItems_cons_occupied (i : Nat) (r : NonZeroUsize) (x : T)
    (l : List (Nat × Entry T)) :
    occItems ((i, Entry.Occupied r x) :: l) = (i, r.val, x) :: occItems l := rfl

theorem countOccupiedPairs_cons (p : Nat × Entry T) (l : List (Nat × Entry T)) :
    countOccupiedPairs (p :: l) =
      countOccupiedPairs l + (if isOccupied p.2 then 1 else 0) := by
  simp [countOccupiedPairs, List.countP_cons]

theorem countOccupiedPairs_reverse (l : List (Nat × Entry T)) :
    countOccupiedPairs l.reverse = countOccupiedPairs l :=
  List.countP_reverse _ l

theorem collect_succ (f : Iter T → Option ((Nat × Nat × T) × Iter T))
    (fuel : Nat) (it : Iter T) :
    Iter.collect f (fuel + 1) it =
      match f it with
      | none => []
      | some (out, it') => out :: Iter.collect f fuel it' := rfl

theorem next_cons_vacant (rem i nf : Nat) (l : List (Nat × Entry T)) :
    Iter.next ⟨rem, (i, Entry.Vacant nf) :: l⟩ = Iter.next ⟨rem, l⟩ := rfl

theorem next_cons_occupied (rem i : Nat) (r : NonZeroUsize) (x : T)
    (l : List (Nat × Entry T)) :
    Iter.next ⟨rem, (i, Entry.Occupied r x) :: l⟩ =
      some ((i, r.val, x), ⟨rem - 1, l⟩) := rfl

theorem nextBack_eq (rem : Nat) (l : List (Nat × Entry T)) :
    Iter.nextBack ⟨rem, l⟩ = Iter.nextBackAux rem l.reverse := rfl

theorem nextBackAux_cons_vacant (rem i nf : Nat) (revRest : List (Nat × Entry T)) :
    Iter.nextBackAux rem ((i, Entry.Vacant nf) :: revRest) =
      Iter.nextBackAux rem revRest := rfl

theorem nextBackAux_cons_occupied (rem i : Nat) (r : NonZeroUsize) (x : T)
    (revRest : List (Nat × Entry T)) :
    Iter.nextBackAux rem ((i, Entry.Occupied r x) :: revRest) =
      some ((i, r.val, x), ⟨rem - 1, revRest.reverse⟩) := rfl

theorem collect_next_eq_occItems (l : List (Nat × Entry T)) (rem fuel : Nat)
    (hfuel : l.length ≤ fuel) :
    Iter.collect Iter.next fuel ⟨rem, l⟩ = occItems l := by
  induction l generalizing rem fuel with
  | nil =>
    cases fuel with
    | zero => rfl
    | succ fuel => rfl
  | cons p l ih =>
    cases fuel with
    | zero => simp at hfuel
    | succ fuel =>
      obtain ⟨i, e⟩ := p
      cases e with
      | Vacant nf =>
        rw [collect_succ, next_cons_vacant, ← collect_succ, occItems_cons_vacant]
        exact ih rem (fuel + 1)
          (by simp only [List.length_cons] at hfuel; omega)
      | Occupied r x =>
        rw [collect_succ, next_cons_occupied, occItems_cons_occupied]
        exact congrArg (List.cons (i, r.val, x))
          (ih (rem - 1) fuel (by simp only [List.length_cons] at hfuel; omega))

theorem collect_nextBack_eq (lr : List (Nat × Entry T)) (rem fuel : Nat)
    (hfuel : lr.length ≤ fuel) :
    Iter.collect Iter.nextBack fuel ⟨rem, lr.reverse⟩ = occItems lr := by
  induction lr generalizing rem fuel with
  | nil =>
    cases fuel with
    | zero => rfl
    | succ fuel => rfl
  | cons p lr ih =>
    cases fuel with
    | zero => simp at hfuel
    | succ fuel =>
      have hnb : Iter.nextBack ⟨rem, (p :: lr).reverse⟩ =
          Iter.nextBackAux rem (p :: lr) := by
        rw [nextBack_eq, List.reverse_reverse]
      obtain ⟨i, e⟩ := p
      cases e with
      | Vacant nf =>
        have hnb2 : Iter.nextBackAux rem lr = Iter.nextBack ⟨rem, lr.reverse⟩ := by
          rw [nextBack_eq, List.reverse_reverse]
        rw [collect_succ, hnb, nextBackAux_cons_vacant, hnb2, ← collect_succ,
          occItems_cons_vacant]
        exact ih rem (fuel + 1)
          (by simp only [List.length_cons] at hfuel; omega)
      | Occupied r x =>
        rw [collect_succ, hnb, nextBackAux_cons_occupied, occItems_cons_occupied]
        exact congrArg (List.cons (i, r.val, x))
          (ih (rem - 1) fuel (by simp only [List.length_cons] at hfuel; omega))

theorem occItems_length (l : List (Nat × Entry T)) :
    (occItems l).length = countOccupiedPairs l := by
  induction l with
  | nil => rfl
  | cons p l ih =>
    obtain ⟨i, e⟩ := p
    cases e with
    | Vacant nf =>
      rw [occItems_cons_vacant, countOccupiedPairs_cons]
      simp [isOccupied, ih]
    | Occupied r x =>
      rw [occItems_cons_occupied, countOccupiedPairs_cons]
      simp [isOccupied, ih]

theorem countOccupiedPairs_enumFrom (l : List (Entry T)) (n : Nat) :
    countOccupiedPairs (List.enumFrom n l) = countOccupied l := by
  induction l generalizing n with
  | nil => rfl
  | cons e l ih =>
    rw [show List.enumFrom n (e :: l) = (n, e) :: List.enumFrom (n + 1) l from rfl,
      countOccupiedPairs_cons, countOccupied_cons, ih]

theorem mem_occItems (l : List (Nat × Entry T)) (k c : Nat) (x : T)
    (h : (k, c, x) ∈ occItems l) :
    ∃ r : NonZeroUsize, r.val = c ∧ (k, Entry.Occupied r x) ∈ l := by
  rw [occItems, List.mem_filterMap] at h
  obtain ⟨⟨i, e⟩, hmem, heq⟩ := h
  cases e with
  | Vacant nf => simp at heq
  | Occupied r y =>
    simp only [Option.some.injEq, Prod.mk.injEq] at heq
    obtain ⟨rfl, rfl, rfl⟩ := heq
    exact ⟨r, rfl, hmem⟩

theorem occItems_enumFrom_fst_le (l : List (Entry T)) (n : Nat)
    (p : Nat × Nat × T) (h : p ∈ occItems (List.enumFrom n l)) : n ≤ p.1 := by
  rw [occItems, List.mem_filterMap] at h
  obtain ⟨⟨i, e⟩, hmem, heq⟩ := h
  have hq := List.le_fst_of_mem_enumFrom hmem
  cases e with
  | Vacant nf => simp at heq
  | Occupied r y =>
    simp only [Option.some.injEq] at heq
    rw [← heq]
    exact hq

theorem occItems_enumFrom_pairwise (l : List (Entry T)) (n : Nat) :
    List.Pairwise (fun a b => a.1 < b.1) (occItems (List.enumFrom n l)) := by
  induction l generalizing n with
  | nil => exact List.Pairwise.nil
  | cons e l ih =>
    rw [show List.enumFrom n (e :: l) = (n, e) :: List.enumFrom (n + 1) l from rfl]
    cases e with
    | Vacant nf =>
      rw [occItems_cons_vacant]
      exact ih (n + 1)
    | Occupied r x =>
      rw [occItems_cons_occupied]
      refine List.Pairwise.cons (fun b hb => ?_) (ih (n + 1))
      have := occItems_enumFrom_fst_le l (n + 1) b hb
      show n < b.1
      omega

theorem nextAux_step (rem : Nat) (l : List (Nat × Entry T))
    (out : Nat × Nat × T) (it' : Iter T)
    (h : Iter.nextAux rem l = some (out, it')) :
    it'.remaining = rem - 1 ∧
    countOccupiedPairs l = countOccupiedPairs it'.iter + 1 := by
  induction l with
  | nil => simp [Iter.nextAux] at h
  | cons p l ih =>
    obtain ⟨i, e⟩ := p
    cases e with
    | Vacant nf =>
      rw [show Iter.nextAux rem ((i, Entry.Vacant nf) :: l) =
          Iter.nextAux rem l from rfl] at h
      have hl := ih h
      rw [countOccupiedPairs_cons]
      simp [isOccupied]
      exact ⟨hl.1, by omega⟩
    | Occupied r x =>
      rw [show Iter.nextAux rem ((i, Entry.Occupied r x) :: l) =
          some ((i, r.val, x), ⟨rem - 1, l⟩) from rfl] at h
      simp only [Option.some.injEq, Prod.mk.injEq] at h
      obtain ⟨-, rfl⟩ := h
      rw [countOccupiedPairs_cons]
      simp [isOccupied]

theorem nextBackAux_step (rem : Nat) (lr : List (Nat × Entry T))
    (out : Nat × Nat × T) (it' : Iter T)
    (h : Iter.nextBackAux rem lr = some (out, it')) :
    it'.remaining = rem - 1 ∧
    countOccupiedPairs lr = countOccupiedPairs it'.iter + 1 := by
  induction lr with
  | nil => simp [Iter.nextBackAux] at h
  | cons p lr ih =>
    obtain ⟨i, e⟩ := p
    cases e with
    | Vacant nf =>
      rw [nextBackAux_cons_vacant] at h
      have hl := ih h
      rw [countOccupiedPairs_cons]
      simp [isOccupied]
      exact ⟨hl.1, by omega⟩
    | Occupied r x =>
      rw [nextBackAux_cons_occupied] at h
      simp only [Option.some.injEq, Prod.mk.injEq] at h
      obtain ⟨-, rfl⟩ := h
      rw [countOccupiedPairs_cons]
      simp [isOccupied, countOccupiedPairs_reverse]

theorem iterStep_preserves (it it' : Iter T) (hstep : IterStep it it')
    (hinv : it.remaining = countOccupiedPairs it.iter) :
    it'.remaining = countOccupiedPairs it'.iter ∧
    it'.remaining + 1 = it.remaining := by
  cases hstep with
  | fwd out h =>
    have hs := nextAux_step it.remaining it.iter out it' h
    constructor <;> omega
  | bwd out h =>
    have hs := nextBackAux_step it.remaining it.iter.reverse out it' h
    have hrev := countOccupiedPairs_reverse it.iter
    constructor <;> omega

theorem iter_reach_inv (s : MultiStash T)
    (hinv : s.len_occupied = countOccupied s.entries) (it : Iter T)
    (hr : Relation.ReflTransGen IterStep (Iter.new s) it) :
    it.remaining = countOccupiedPairs it.iter := by
  induction hr with
  | refl =>
    show s.len_occupied = countOccupiedPairs (s.entries.enum)
    rw [hinv, show s.entries.enum = List.enumFrom 0 s.entries from rfl,
      countOccupiedPairs_enumFrom]
  | tail hsteps hstep ih => exact (iterStep_preserves _ _ hstep ih).1

/-- C9: on every reachable stash, a full forward traversal of the read-only
iterator yields exactly `len_occupied` triples in strictly ascending
slot-index order (vacant slots are skipped), each agreeing with `get`; a
full backward traversal yields the reverse of the forward sequence; and at
every point of any traversal (any interleaving of `next` and `next_back`
steps) the reported exact length equals the number of occupied entries not
yet yielded, decreasing by one per element produced from either end. -/
theorem iter_traversal_properties (s : MultiStash T) (h : Reachable s) :
    ((Iter.new s).toList).length = s.len_occupied ∧
    List.Pairwise (fun a b => a.1 < b.1) (Iter.new s).toList ∧
    (∀ key count x, (key, count, x) ∈ (Iter.new s).toList →
      s.get key = some (count, x)) ∧
    (Iter.new s).toListBack = ((Iter.new s).toList).reverse ∧
    (∀ it, Relation.ReflTransGen IterStep (Iter.new s) it →
      it.len = countOccupiedPairs it.iter ∧
      (∀ out it', it.next = some (out, it') → it'.len + 1 = it.len) ∧
      (∀ out it', it.nextBack = some (out, it') → it'.len + 1 = it.len)) := by
  obtain ⟨h1, -, -⟩ := reachable_inv s h
  have htl : (Iter.new s).toList = occItems (s.entries.enum) :=
    collect_next_eq_occItems (s.entries.enum) s.len_occupied
      (s.entries.enum.length) (Nat.le_refl _)
  refine ⟨?_, ?_, ?_, ?_, ?_⟩
  · rw [htl, occItems_length]
    rw [show s.entries.enum = List.enumFrom 0 s.entries from rfl,
      countOccupiedPairs_enumFrom]
    exact h1.symm
  · rw [htl]
    exact occItems_enumFrom_pairwise s.entries 0
  · intro key count x hmem
    rw [htl] at hmem
    obtain ⟨r, hrval, hmem'⟩ := mem_occItems _ key count x hmem
    have hgetk : s.entries[key]? = some (Entry.Occupied r x) :=
      List.mem_enum_iff_getElem?.mp hmem'
    simp [MultiStash.get, hgetk, hrval]
  · have h2 := collect_nextBack_eq (s.entries.enum.reverse) s.len_occupied
      (s.entries.enum.length) (by simp)
    rw [List.reverse_reverse] at h2
    have h3 : occItems (s.entries.enum.reverse) =
        (occItems s.entries.enum).reverse := List.filterMap_reverse _ _
    show Iter.collect Iter.nextBack (s.entries.enum.length)
      ⟨s.len_occupied, s.entries.enum⟩ = ((Iter.new s).toList).reverse
    rw [h2, h3, htl]
  · intro it hr
    have hit := iter_reach_inv s h1 it hr
    refine ⟨hit, fun out it' hn => ?_, fun out it' hb => ?_⟩
    · exact (iterStep_preserves it it' (IterStep.fwd it it' out hn) hit).2
    · exact (iterStep_preserves it it' (IterStep.bwd it it' out hb) hit).2

/-- Witness for C9 at the concrete reachable state `exampleStash`. -/
theorem iter_traversal_properties_witness :
    ((Iter.new exampleStash).toList).length = exampleStash.len_occupied ∧
    List.Pairwise (fun a b => a.1 < b.1) (Iter.new exampleStash).toList ∧
    (∀ key count x, (key, count, x) ∈ (Iter.new exampleStash).toList →
      exampleStash.get key = some (count, x)) ∧
    (Iter.new exampleStash).toListBack =
      ((Iter.new exampleStash).toList).reverse ∧
    (∀ it, Relation.ReflTransGen IterStep (Iter.new exampleStash) it →
      it.len = countOccupiedPairs it.iter ∧
      (∀ out it', it.next = some (out, it') → it'.len + 1 = it.len) ∧
      (∀ out it', it.nextBack = some (out, it') → it'.len + 1 = it.len)) :=
  iter_traversal_properties exampleStash exampleStash_reachable

end MultiStashModel
